import Mathlib

/-!
# Verification of the R&D tracking pipeline (`src/index.ts`)

Shallow embedding of the in-memory ticket pipeline: loading produces a list of
`Ticket` records (one per spreadsheet row, cells normalised to strings); the
pipeline then runs tag propagation, WIP-hour aggregation and contributor
extraction / summary aggregation, all mutating the shared ticket list in place.

Modelling conventions:
* JavaScript numbers are modelled as `ℚ` (all arithmetic performed by the
  program on the claims' inputs is exact decimal arithmetic).
* In-place mutation of the aliased ticket objects is modelled by indexed
  updates on the ticket list; `ticketMap[k]` (a JS object keyed by ticket key,
  later entries overwriting earlier ones, aliasing the row objects) is
  modelled by looking up the last row of the current list with key `k`.
* The unbounded recursions over the parent/child relation
  (`getAllDescendants`, `getWIPHours`, `collectAllDescendants`,
  `collectContributors`) are modelled with an explicit fuel of `rows.length`,
  which is sufficient whenever the parent relation is acyclic (the source
  diverges otherwise; the spec assumes acyclicity).
* Missing cells were normalised to `""` at load time, so JS truthiness of a
  field is emptiness testing; the derived `Sum of WIP hours` field does not
  exist before the aggregation pass, modelled as `Option ℚ` starting at
  `none`.
-/

/-- One spreadsheet row: the named columns the program reads, plus the
pass-through columns (`extra`).  All input cells are strings (`''` when the
cell was empty); `sumWip` is the derived `'Sum of WIP hours'` attribute which
does not exist until the aggregation pass sets it. -/
structure Ticket where
  key : String        -- 'Work item key'
  parent : String     -- 'Parent'
  linked : String     -- 'Linked work items'
  workType : String   -- 'Work type'
  rdti : String       -- 'R&DTI Activity' ('' = absent)
  wip : String        -- 'Work Hours in Progress'
  mob : String        -- 'Mob'
  assignee : String   -- 'Assignee'
  sumWip : Option ℚ   -- 'Sum of WIP hours' (derived)
  extra : List (String × String)  -- remaining columns, passed through
  deriving DecidableEq, Repr

/-- A cell written to the output workbook: either a string or a number. -/
inductive Cell where
  | str (s : String)
  | num (q : ℚ)
  deriving DecidableEq, Repr

/-- One contributor record emitted by `collectContributors`. -/
structure Contributor where
  project : String
  who : String
  role : String
  activityType : String
  hoursCost : ℚ
  phase : String
  workItem : String
  deriving DecidableEq, Repr

/-- One aggregated `(project, who)` group of the `Project Summary` sheet. -/
structure AggEntry where
  project : String
  who : String
  role : String
  activityType : String
  totalHours : ℚ
  phase : String
  workItems : List String
  deriving DecidableEq, Repr

/-! ## JavaScript string primitives

The source uses `split(',')`, `trim()`, `startsWith(p)` and truthiness of
strings.  They are modelled directly on the character lists. -/

/-- The characters matched by the JS whitespace class `\s` (and trimmed by
`String.prototype.trim`): ASCII whitespace, NBSP, the Unicode space
separators, line/paragraph separators, narrow NBSP, MMSP, ideographic space
and the BOM. -/
def isJsSpace (c : Char) : Bool :=
  c = ' ' || c = '\t' || c = '\n' || c = '\x0b' || c = '\x0c' || c = '\r' ||
  c = ' ' || c = ' ' ||
  (0x2000 ≤ c.toNat && c.toNat ≤ 0x200A) ||
  c = ' ' || c = ' ' || c = ' ' || c = ' ' ||
  c = '　' || c = '﻿'

/-- Models `s.trim()`. -/
def jsTrim (s : String) : String :=
  String.mk (((s.data.dropWhile isJsSpace).reverse.dropWhile isJsSpace).reverse)

/-- Worker for `s.split(',')`: accumulates the current fragment (reversed). -/
def splitCommaAux : List Char → List Char → List String
  | [], acc => [String.mk acc.reverse]
  | ',' :: cs, acc => String.mk acc.reverse :: splitCommaAux cs []
  | c :: cs, acc => splitCommaAux cs (c :: acc)

/-- Models `s.split(',')` (note `"".split(',') = [""]`, as in JS). -/
def jsSplitComma (s : String) : List String :=
  splitCommaAux s.data []

/-- Models `s.startsWith(p)`. -/
def jsStartsWith (s p : String) : Bool :=
  p.data.isPrefixOf s.data

/-! ## Duration normaliser (`parseTimeToHours`)

The source scans the text with the global regex `/(\d+(?:\.\d+)?)\s*([dhm])/g`
and accumulates `d*8 + h*1 + m/60`.  The regex engine repeatedly finds the
leftmost match at or after the previous match's end; because the quantifiers
in this pattern never benefit from backtracking (a digit can follow neither
`\d+` nor `\.\d+` maximally munched, and a space never matches `[dhm]`), the
scan is equivalent to: at each position try the maximal-munch match, on
failure advance one character, on success consume the match. -/

/-- Numeric value of a (non-empty) digit run, most significant first. -/
def digitsToNat (ds : List Char) : Nat :=
  ds.foldl (fun n c => 10 * n + (c.toNat - 48)) 0

/-- Value `parseFloat` assigns to the matched number: integer digits `ds`, fractional
digits `fs` (empty when the optional `(?:\.\d+)?` group did not match). -/
def ratOfDigits (ds fs : List Char) : ℚ :=
  (digitsToNat ds : ℚ) + if fs.isEmpty then 0 else (digitsToNat fs : ℚ) / 10 ^ fs.length

/-- Attempt to match `(\d+(?:\.\d+)?)\s*([dhm])` at the head of `cs`;
returns the parsed value, the unit character and the remaining input. -/
def matchToken (cs : List Char) : Option (ℚ × Char × List Char) :=
  let ds := cs.takeWhile Char.isDigit
  let r1 := cs.dropWhile Char.isDigit
  if ds.isEmpty then none else
  let p : List Char × List Char :=
    match r1 with
    | '.' :: r1' =>
      let fs := r1'.takeWhile Char.isDigit
      if fs.isEmpty then ([], r1) else (fs, r1'.dropWhile Char.isDigit)
    | _ => ([], r1)
  let r3 := p.2.dropWhile isJsSpace
  match r3 with
  | u :: rest =>
    if u = 'd' ∨ u = 'h' ∨ u = 'm' then some (ratOfDigits ds p.1, u, rest) else none
  | [] => none

/-- One `switch (unit)` step of the accumulation loop. -/
def addTok (acc v : ℚ) (u : Char) : ℚ :=
  if u = 'd' then acc + v * 8
  else if u = 'h' then acc + v
  else if u = 'm' then acc + v / 60
  else acc

/-- The `while ((match = timeRegex.exec(timeStr)) !== null)` loop,
accumulating `totalHours`.  Each iteration consumes at least one character,
so fuel `= cs.length` never runs out. -/
def parseAux : Nat → ℚ → List Char → ℚ
  | 0, acc, _ => acc
  | _, acc, [] => acc
  | f + 1, acc, c :: cs =>
    match matchToken (c :: cs) with
    | some (v, u, rest) => parseAux f (addTok acc v u) rest
    | none => parseAux f acc cs

/-- Function `parseTimeToHours` from the source. -/
def parseTimeToHours (s : String) : ℚ :=
  if s = "" then 0 else parseAux s.data.length 0 s.data

/-- The same scan, collecting the matched `(value, unit)` tokens instead of
accumulating the sum (used to state what `parseTimeToHours` sums). -/
def scanAux : Nat → List Char → List (ℚ × Char)
  | 0, _ => []
  | _, [] => []
  | f + 1, c :: cs =>
    match matchToken (c :: cs) with
    | some (v, u, rest) => (v, u) :: scanAux f rest
    | none => scanAux f cs

/-- All `<number><unit>` tokens the scanner finds in `s`. -/
def scanTokens (s : String) : List (ℚ × Char) :=
  scanAux s.data.length s.data

/-- Hours contributed by one token: `d*8`, `h*1`, `m/60`. -/
def tokenHours (t : ℚ × Char) : ℚ :=
  if t.2 = 'd' then t.1 * 8
  else if t.2 = 'h' then t.1
  else t.1 / 60

/-! ## Record store and hierarchy index -/

/-- Predicate `isMapTicket`: `"Idea"`-type tickets whose key starts with `"MAP-"`. -/
def isMapTicket (t : Ticket) : Bool :=
  t.workType == "Idea" && jsStartsWith t.key "MAP-"

/-- Helper `parseLinkedWorkItems`: split on commas, trim, drop empties
(`!linkedWorkItems` short-circuits to `[]`). -/
def parseLinkedWorkItems (s : String) : List String :=
  if s = "" then [] else ((jsSplitComma s).map jsTrim).filter (fun x => x ≠ "")

/-- Lookup `ticketMap[k]`: the object map is written in row order with later rows
overwriting earlier ones, and aliases the (mutated) row objects, so a lookup
returns the last row of the current list whose key is `k`. -/
def findTicket (rows : List Ticket) (k : String) : Option Ticket :=
  rows.reverse.find? (fun r => r.key == k)

/-- Helper `getChildren` (second variant, the governing one): rows whose `Parent`
is truthy and starts with `parent.key + ' '`. -/
def getChildren (rows : List Ticket) (t : Ticket) : List Ticket :=
  rows.filter (fun r => r.parent != "" && jsStartsWith r.parent (t.key ++ " "))

/-- Helper `getPeopleCount`: number of trimmed, non-empty mob names when `Mob` is
non-blank, else 1 (whether or not a real assignee exists). -/
def getPeopleCount (t : Ticket) : Nat :=
  if t.mob ≠ "" ∧ jsTrim t.mob ≠ "" then
    (((jsSplitComma t.mob).map jsTrim).filter (fun n => n ≠ "")).length
  else if t.assignee ≠ "" ∧ jsTrim t.assignee ≠ "" ∧ jsTrim t.assignee ≠ "Unassigned" then
    1
  else
    1

/-! ## Effort aggregator (`getWIPHours`) -/

/-- One unfolding of `getWIPHours`, with `rec` standing for the recursive
calls on the direct children.  Mirrors the source: leaf ⇒ own hours
(`parsed * peopleCount`); redistribute special case ⇒ parent hours times the
children's combined people count; otherwise the max of own hours and the
children's sum. -/
def wipStep (rows : List Ticket) (rec : Ticket → ℚ) (t : Ticket) : ℚ :=
  let baseHours := parseTimeToHours t.wip
  let pc := getPeopleCount t
  let ticketHours := baseHours * (pc : ℚ)
  let children := getChildren rows t
  if children.isEmpty then ticketHours
  else
    let childrenHaveHours := children.any fun c => decide ((0 : ℚ) < parseTimeToHours c.wip)
    let totalPeople := (children.map getPeopleCount).sum
    if !childrenHaveHours && decide ((0 : ℚ) < baseHours) && decide (pc < totalPeople) then
      baseHours * (totalPeople : ℚ)
    else
      max ticketHours ((children.map rec).sum)

/-- Function `getWIPHours` with explicit recursion fuel. -/
def getWIPHoursF (rows : List Ticket) : Nat → Ticket → ℚ
  | 0, _ => 0
  | f + 1, t => wipStep rows (getWIPHoursF rows f) t

/-- Function `getWIPHours`: fuel `rows.length` suffices for any acyclic parent
relation (a descending child chain visits pairwise distinct rows). -/
def getWIPHours (rows : List Ticket) (t : Ticket) : ℚ :=
  getWIPHoursF rows rows.length t

/-- Own effort of a single ticket, as named by the spec:
`ownHours(ticket) = parseHours(ticket.durationRaw) * peopleCount(ticket)`. -/
def ownHours (t : Ticket) : ℚ :=
  parseTimeToHours t.wip * (getPeopleCount t : ℚ)

/-- The redistribute special case of §4.5 is taken at `t`: `t` has children,
no child carries its own duration, `t` does, and the children's combined
people count exceeds `t`'s. -/
def redistributeTaken (rows : List Ticket) (t : Ticket) : Prop :=
  getChildren rows t ≠ [] ∧
  (∀ c ∈ getChildren rows t, ¬ (0 : ℚ) < parseTimeToHours c.wip) ∧
  (0 : ℚ) < parseTimeToHours t.wip ∧
  getPeopleCount t < ((getChildren rows t).map getPeopleCount).sum

/-- The redistribute condition is decidable (used by concrete witnesses). -/
instance redistributeTakenDecidable (rows : List Ticket) (t : Ticket) :
    Decidable (redistributeTaken rows t) := by
  unfold redistributeTaken
  infer_instance

/-! ## Activity tag propagator -/

/-- Helper `findMapTicketsInLinked`: resolve the linked keys and keep the MAP
tickets among them. -/
def findMapTicketsInLinked (rows : List Ticket) (t : Ticket) : List Ticket :=
  ((parseLinkedWorkItems t.linked).filterMap (findTicket rows)).filter
    (fun lt => isMapTicket lt)

/-- Helper `getRDTIFromLinkedMap`: tag of the first linked MAP ticket that already
carries one. -/
def getRDTIFromLinkedMap (rows : List Ticket) (t : Ticket) : Option String :=
  ((findMapTicketsInLinked rows t).find? (fun m => m.rdti != "")).map (fun m => m.rdti)

/-- Replace the ticket at position `j` (out-of-range leaves the list
unchanged), modelling in-place mutation of the `j`-th row object. -/
def modifyIdx : List Ticket → Nat → (Ticket → Ticket) → List Ticket
  | [], _, _ => []
  | t :: ts, 0, f => f t :: ts
  | t :: ts, j + 1, f => t :: modifyIdx ts j f

/-- Indices of the direct children of `t` (children are determined by the
never-mutated `key`/`parent` fields, so any snapshot of the list gives the
same indices). -/
def childIdxs (rows : List Ticket) (t : Ticket) : List Nat :=
  (List.range rows.length).filter fun j =>
    match rows[j]? with
    | some r => r.parent != "" && jsStartsWith r.parent (t.key ++ " ")
    | none => false

/-- Helper `getAllDescendants`, as positions: the children followed by each child's
descendants, with recursion fuel. -/
def descIdxs (rows : List Ticket) : Nat → Ticket → List Nat
  | 0, _ => []
  | f + 1, t =>
    let cs := childIdxs rows t
    cs ++ cs.flatMap fun j =>
      match rows[j]? with
      | some c => descIdxs rows f c
      | none => []

/-- The descendant sweep of the propagation loop: in order, each descendant
without a tag receives `tag` and is marked processed. -/
def sweepStep (tag : String) (st : List Ticket × List String) (j : Nat) :
    List Ticket × List String :=
  match st.1[j]? with
  | none => st
  | some d =>
    if d.rdti = "" then
      (modifyIdx st.1 j (fun x => { x with rdti := tag }), d.key :: st.2)
    else st

/-- Sweep a tag over a list of descendant positions. -/
def sweep (tag : String) (idxs : List Nat) (st : List Ticket × List String) :
    List Ticket × List String :=
  idxs.foldl (sweepStep tag) st

/-- One iteration of the propagation loop at position `i`: skip when already
processed / already tagged / a MAP ticket / no linked tag found; otherwise
assign the tag, mark processed and sweep the descendants. -/
def propagateStep (st : List Ticket × List String) (i : Nat) :
    List Ticket × List String :=
  let rows := st.1
  let processed := st.2
  match rows[i]? with
  | none => st
  | some t =>
    if processed.contains t.key then st
    else if t.rdti ≠ "" then st
    else if isMapTicket t then st
    else
      match getRDTIFromLinkedMap rows t with
      | none => st
      | some tag =>
        let rows1 := modifyIdx rows i (fun x => { x with rdti := tag })
        sweep tag (descIdxs rows1 rows1.length t) (rows1, t.key :: processed)

/-- The whole propagation pass (`Process tickets with new logic`). -/
def propagate (rows : List Ticket) : List Ticket :=
  ((List.range rows.length).foldl propagateStep (rows, [])).1

/-! ## Effort aggregator: top-level rollup -/

/-- Helper `collectAllDescendants`: the keys of all descendants of a ticket (a JS
`Set<string>`, modelled as a list used only through membership), with
recursion fuel. -/
def collectAllDescendants (rows : List Ticket) : Nat → Ticket → List String
  | 0, _ => []
  | f + 1, t =>
    (getChildren rows t).flatMap fun c => c.key :: collectAllDescendants rows f c

/-- First pass of the rollup: the union `D` of the descendants of every
linked item that resolves to a non-MAP ticket. -/
def linkedDescUnion (rows : List Ticket) (t : Ticket) : List String :=
  (parseLinkedWorkItems t.linked).foldl
    (fun acc linkedId =>
      match findTicket rows linkedId with
      | some lt =>
        if !isMapTicket lt then acc ++ collectAllDescendants rows rows.length lt
        else acc
      | none => acc)
    []

/-- Second-pass contribution of one linked id: skip unresolved ids, skip ids
in `allDesc`, add `getWIPHours` for non-MAP items and for untagged MAP
items. -/
def rollupAdd (rows : List Ticket) (allDesc : List String) (total : ℚ)
    (linkedId : String) : ℚ :=
  match findTicket rows linkedId with
  | none => total
  | some lt =>
    if allDesc.contains linkedId then total
    else if !isMapTicket lt then total + getWIPHours rows lt
    else if lt.rdti = "" then total + getWIPHours rows lt
    else total

/-- Second pass of the rollup: sum the contributions of the linked ids. -/
def rollupFold (rows : List Ticket) (allDesc : List String)
    (ids : List String) : ℚ :=
  ids.foldl (rollupAdd rows allDesc) 0

/-- Rollup `totalWIPHours` computed for one (tagged MAP) ticket: 0 when there are no
linked items, else the two-pass rollup. -/
def sumLinkedWIP (rows : List Ticket) (t : Ticket) : ℚ :=
  let linkedItems := parseLinkedWorkItems t.linked
  if linkedItems.isEmpty then 0
  else rollupFold rows (linkedDescUnion rows t) linkedItems

/-- One iteration of the `Sum of WIP hours` loop at position `i`: initialise
the field to 0, then, for tagged MAP tickets, overwrite it with the rollup
(computed over the current list state; the rollup never reads `sumWip`). -/
def aggregateStep (rows : List Ticket) (i : Nat) : List Ticket :=
  match rows[i]? with
  | none => rows
  | some t =>
    let rows1 := modifyIdx rows i (fun x => { x with sumWip := some 0 })
    if isMapTicket t && t.rdti != "" then
      modifyIdx rows1 i (fun x => { x with sumWip := some (sumLinkedWIP rows1 t) })
    else rows1

/-- The whole `Sum of WIP hours` aggregation pass. -/
def aggregate (rows : List Ticket) : List Ticket :=
  (List.range rows.length).foldl aggregateStep rows

/-! ## Contributor resolver -/

/-- Build one contributor record for `person` on ticket `t` under `tag`. -/
def mkContributor (tag person : String) (hours : ℚ) (workItem : String) :
    Contributor :=
  { project := tag
    who := person
    role := "Employee"
    activityType := if tag == "Platform" then "Support" else "Core"
    hoursCost := hours
    phase := "Development"
    workItem := workItem }

/-- Helper `collectContributors`: records for the mob (one per person, each with the
full parsed duration) or else the assignee, then recursively the children's
records, with recursion fuel. -/
def collectContributors (rows : List Ticket) : Nat → Ticket → String → List Contributor
  | 0, _, _ => []
  | f + 1, t, tag =>
    let baseHours := parseTimeToHours t.wip
    let own : List Contributor :=
      if t.mob ≠ "" ∧ jsTrim t.mob ≠ "" then
        (((jsSplitComma t.mob).map jsTrim).filter (fun n => n ≠ "")).map
          (fun person => mkContributor tag person baseHours t.key)
      else if t.assignee ≠ "" ∧ jsTrim t.assignee ≠ "" ∧ jsTrim t.assignee ≠ "Unassigned" then
        [mkContributor tag t.assignee baseHours t.key]
      else []
    own ++ (getChildren rows t).flatMap (fun c => collectContributors rows f c tag)

/-- Helper `traceContributorsFromLinkedItems`: same linked-item enumeration and
descendant-based double-count exclusion as the rollup, collecting contributor
records instead of hours. -/
def traceContributorsFromLinkedItems (rows : List Ticket) (mapTicket : Ticket) :
    List Contributor :=
  if mapTicket.rdti = "" then []
  else
    let linkedItems := parseLinkedWorkItems mapTicket.linked
    let allDesc := linkedDescUnion rows mapTicket
    linkedItems.foldl
      (fun acc linkedId =>
        match findTicket rows linkedId with
        | none => acc
        | some lt =>
          if allDesc.contains linkedId then acc
          else if !isMapTicket lt then
            acc ++ collectContributors rows rows.length lt mapTicket.rdti
          else if lt.rdti = "" then
            acc ++ collectContributors rows rows.length lt mapTicket.rdti
          else acc)
      []

/-- The `Transformed Data` sheet cells of one contributor. -/
def contributorCells (c : Contributor) : List Cell :=
  [Cell.str c.project, Cell.str c.who, Cell.str c.role, Cell.str c.activityType,
   Cell.num c.hoursCost, Cell.str c.phase, Cell.str c.workItem]

/-- The data rows of the `Transformed Data` sheet: for each tagged MAP ticket
in row order, its traced contributors with `hoursCost > 0`. -/
def transformedRows (rows : List Ticket) : List (List Cell) :=
  rows.foldl
    (fun acc t =>
      if isMapTicket t && t.rdti != "" then
        acc ++ (((traceContributorsFromLinkedItems rows t).filter
          (fun c => decide ((0 : ℚ) < c.hoursCost))).map contributorCells)
      else acc)
    []

/-! ## Summary aggregation and sort -/

/-- The JS aggregation-map key `` `${project}|${who}` ``. -/
def aggKeyStr (c : Contributor) : String :=
  c.project ++ "|" ++ c.who

/-- Models `Set.add`: append if absent (JS `Set` keeps insertion order). -/
def addWorkItem (l : List String) (w : String) : List String :=
  if l.contains w then l else l ++ [w]

/-- Update the first map entry with key `k` (JS `Map.set` on an existing key
keeps the entry's position). -/
def updateFirst : List (String × AggEntry) → String → (AggEntry → AggEntry) →
    List (String × AggEntry)
  | [], _, _ => []
  | p :: ps, k, f =>
    if p.1 = k then (p.1, f p.2) :: ps else p :: updateFirst ps k f

/-- Fold one contributor into the insertion-ordered aggregation map. -/
def upsertContributor (m : List (String × AggEntry)) (c : Contributor) :
    List (String × AggEntry) :=
  if m.any (fun p => p.1 == aggKeyStr c) then
    updateFirst m (aggKeyStr c) fun e =>
      { e with totalHours := e.totalHours + c.hoursCost
               workItems := addWorkItem e.workItems c.workItem }
  else
    m ++ [(aggKeyStr c,
      { project := c.project, who := c.who, role := c.role
        activityType := c.activityType, totalHours := c.hoursCost
        phase := c.phase, workItems := [c.workItem] })]

/-- The unsorted aggregated summary entries, in map insertion order: every
tagged MAP ticket's traced contributors with positive hours, grouped by
`project|who`. -/
def summaryEntries (rows : List Ticket) : List AggEntry :=
  (rows.foldl
    (fun m t =>
      if isMapTicket t && t.rdti != "" then
        (traceContributorsFromLinkedItems rows t).foldl
          (fun m c => if (0 : ℚ) < c.hoursCost then upsertContributor m c else m)
          m
      else m)
    []).map (fun p => p.2)

/-! ### The sort comparator

The source sorts with `a.project.localeCompare(b.project)` (resp. `who`).
`localeCompare` under the default locale is the ICU root collation: strings
compare first at primary strength (base letters, case-insensitively), and
equal-primary strings are ordered by case (lowercase before uppercase),
falling back to code points.  We model this collation by comparing, for each
string, the concatenated tier key
`lowercased code points ++ [sep] ++ case ranks ++ [sep] ++ code points`
(every tier value is ≥ 1 and the separator is 0, so position-wise list
comparison of these keys performs exactly the tiered comparison). -/

/-- Position-wise three-way comparison of `Nat` lists (shorter prefix first). -/
def listCmp : List Nat → List Nat → Int
  | [], [] => 0
  | [], _ :: _ => -1
  | _ :: _, [] => 1
  | a :: as, b :: bs => if a < b then -1 else if b < a then 1 else listCmp as bs

/-- Case tier of one character: lowercase (and caseless) before uppercase. -/
def caseRank (c : Char) : Nat :=
  if c.isUpper then 2 else 1

/-- The collation key of a string (see the section comment). -/
def collKey (s : String) : List Nat :=
  (s.data.map fun c => c.toLower.toNat + 1) ++
  0 :: (s.data.map caseRank) ++
  0 :: (s.data.map fun c => c.toNat + 1)

/-- Models `a.localeCompare(b)` under the default-locale (root) collation. -/
def localeCompare (a b : String) : Int :=
  listCmp (collKey a) (collKey b)

/-- The comparator passed to `sort`: by project, then by person. -/
def aggCmp (a b : AggEntry) : Int :=
  if a.project ≠ b.project then localeCompare a.project b.project
  else localeCompare a.who b.who

/-- Predicate: `sort` keeps `a` before `b` when the comparator is ≤ 0. -/
def aggLE (a b : AggEntry) : Bool :=
  decide (aggCmp a b ≤ 0)

/-- The sorted rows of the `Project Summary` sheet (JS `Array.prototype.sort`
is a stable sort producing a list sorted w.r.t. the comparator; modelled by
`List.mergeSort`). -/
def summaryData (rows : List Ticket) : List AggEntry :=
  (summaryEntries rows).mergeSort aggLE

/-- The claim's comparison: ascending by activity then person under
case-sensitive lexical (code-point) string comparison. -/
def cpKeyLE (a b : AggEntry) : Prop :=
  a.project < b.project ∨ (a.project = b.project ∧ a.who ≤ b.who)

/-- The code-point key comparison is decidable (used by the counterexample). -/
instance cpKeyLEDecidable (a b : AggEntry) : Decidable (cpKeyLE a b) := by
  unfold cpKeyLE
  infer_instance

/-! ## Results sheet -/

/-- Rendering of `row[key] || ''` for the derived numeric field: `undefined`
and `0` are falsy and print as the empty string. -/
def renderSumWip : Option ℚ → Cell
  | none => Cell.str ""
  | some q => if q = 0 then Cell.str "" else Cell.num q

/-- The `Results` sheet row of one ticket: every input column (for strings,
`s || ''` is `s` itself) followed by the `Sum of WIP hours` column. -/
def resultsCells (t : Ticket) : List Cell :=
  [Cell.str t.key, Cell.str t.parent, Cell.str t.linked, Cell.str t.workType,
   Cell.str t.rdti, Cell.str t.wip, Cell.str t.mob, Cell.str t.assignee] ++
  (t.extra.map fun p => Cell.str p.2) ++ [renderSumWip t.sumWip]

/-! ## Concrete ticket sets used by witnesses and counterexamples -/

/-- A row whose cells are all empty. -/
def blankTicket : Ticket :=
  { key := "", parent := "", linked := "", workType := "", rdti := "",
    wip := "", mob := "", assignee := "", sumWip := none, extra := [] }

/-- Parent with 1h logged and assignee Alice. -/
def wipT1 : Ticket :=
  { blankTicket with key := "T-1", wip := "1h", assignee := "Alice" }

/-- Child of `T-1` without duration but with a two-person mob. -/
def wipT2 : Ticket :=
  { blankTicket with key := "T-2", parent := "T-1 child", mob := "Alice, Bob" }

/-- Grandchild with 100h logged. -/
def wipT3 : Ticket :=
  { blankTicket with key := "T-3", parent := "T-2 grandchild", wip := "100h",
                     assignee := "Alice" }

/-- Parent with 1h, child without duration but a two-person mob, grandchild
with 100h: the redistribute case fires at the parent. -/
def wipExRows : List Ticket := [wipT1, wipT2, wipT3]

/-- Rank function witnessing that `wipExRows` is acyclic. -/
def wipExRank (t : Ticket) : Nat :=
  if t.key = "T-1" then 2 else if t.key = "T-2" then 1 else 0

/-- Links the untagged MAP ticket `MAP-9`. -/
def idemT1 : Ticket :=
  { blankTicket with key := "T-1", workType := "Task", linked := "MAP-9" }

/-- Links the natively tagged MAP ticket `MAP-2`; parent of `MAP-9`. -/
def idemT2 : Ticket :=
  { blankTicket with key := "T-2", workType := "Task", linked := "MAP-2" }

/-- Untagged MAP ticket, child of `T-2`. -/
def idemM9 : Ticket :=
  { blankTicket with key := "MAP-9", workType := "Idea", parent := "T-2 item" }

/-- Natively tagged MAP ticket. -/
def idemM2 : Ticket :=
  { blankTicket with key := "MAP-2", workType := "Idea", rdti := "RD" }

/-- Ticket set where `T-1` links an untagged MAP ticket that only receives its tag during the
first pass (as a descendant of `T-2`), so a second pass tags `T-1`. -/
def idemExRows : List Ticket := [idemT1, idemT2, idemM9, idemM2]

/-- Ticket `T-2` after the first propagation pass (tag `"RD"` assigned). -/
def idemT2Tagged : Ticket := { idemT2 with rdti := "RD" }

/-- MAP ticket tagged `"apple"` linking `T-1`. -/
def sortM1 : Ticket :=
  { blankTicket with key := "MAP-1", workType := "Idea", rdti := "apple",
                     linked := "T-1" }

/-- One hour logged by Dave. -/
def sortT1 : Ticket :=
  { blankTicket with key := "T-1", wip := "1h", assignee := "Dave" }

/-- MAP ticket tagged `"Banana"` linking `T-2`. -/
def sortM2 : Ticket :=
  { blankTicket with key := "MAP-2", workType := "Idea", rdti := "Banana",
                     linked := "T-2" }

/-- One hour logged by Eve. -/
def sortT2 : Ticket :=
  { blankTicket with key := "T-2", wip := "1h", assignee := "Eve" }

/-- Two tagged MAP tickets with one contributor each; activity tags `"apple"`
and `"Banana"` order differently under the locale collation and under
code-point comparison. -/
def sortExRows : List Ticket := [sortM1, sortT1, sortM2, sortT2]

/-- The summary row for `("apple", "Dave")`. -/
def sortAggApple : AggEntry :=
  { project := "apple", who := "Dave", role := "Employee", activityType := "Core",
    totalHours := 1, phase := "Development", workItems := ["T-1"] }

/-- The summary row for `("Banana", "Eve")`. -/
def sortAggBanana : AggEntry :=
  { project := "Banana", who := "Eve", role := "Employee", activityType := "Core",
    totalHours := 1, phase := "Development", workItems := ["T-2"] }

/-- Ticket `MAP-1` of the §8 scenario: activity ticket tagged `"Platform"`,
linking `TASK-10`. -/
def scenM1 : Ticket :=
  { blankTicket with key := "MAP-1", workType := "Idea", rdti := "Platform",
                     linked := "TASK-10" }

/-- Ticket `TASK-10` of the §8 scenario: no duration of its own. -/
def scenT10 : Ticket := { blankTicket with key := "TASK-10" }

/-- Ticket `TASK-11` of the §8 scenario: child of `TASK-10`, 2h by mob Carol. -/
def scenT11 : Ticket :=
  { blankTicket with key := "TASK-11", parent := "TASK-10 subtask", wip := "2h",
                     mob := "Carol" }

/-- The §8 scenario ticket set. -/
def scenarioRows : List Ticket := [scenM1, scenT10, scenT11]

/-- Rank function witnessing that `scenarioRows` is acyclic. -/
def scenarioRank (t : Ticket) : Nat :=
  if t.key = "TASK-10" then 1 else 0

/-- Activity ticket linking both `T-1` and `T-1`'s child `T-2`. -/
def dblM1 : Ticket :=
  { blankTicket with key := "MAP-1", workType := "Idea", rdti := "Core work",
                     linked := "T-1, T-2" }

/-- Linked item whose subtree contains `T-2`. -/
def dblT1 : Ticket := { blankTicket with key := "T-1", assignee := "Ann" }

/-- Child of `T-1`, also linked directly from `MAP-1`. -/
def dblT2 : Ticket :=
  { blankTicket with key := "T-2", parent := "T-1 sub", wip := "1h",
                     assignee := "Ann" }

/-- A tagged MAP ticket linking both an item and that item's child: the
child's key lies in the descendant union `D`. -/
def dblExRows : List Ticket := [dblM1, dblT1, dblT2]

/-- A lone non-MAP ticket: the aggregation pass writes `Sum of WIP hours` on
it even though it is not an activity ticket. -/
def frameT1 : Ticket := { blankTicket with key := "T-1", assignee := "Ann" }

/-- Single-row ticket set for the aggregation frame counterexample. -/
def frameExRows : List Ticket := [frameT1]

/-! ## Evolution relations used by the frame / no-overwrite proofs -/

/-- How one ticket may evolve across the propagation pass: every field other
than `rdti` is unchanged, and a non-empty `rdti` is never overwritten. -/
def TicketTagEvol (t t' : Ticket) : Prop :=
  { t' with rdti := t.rdti } = t ∧ (t.rdti ≠ "" → t'.rdti = t.rdti)

/-- Pointwise lifting of `TicketTagEvol` to the whole row list. -/
def RowsTagEvol (a b : List Ticket) : Prop :=
  a.length = b.length ∧
  ∀ (i : Nat) t t', a[i]? = some t → b[i]? = some t' → TicketTagEvol t t'

/-- How one ticket may evolve across the aggregation pass: every field other
than `sumWip` is unchanged. -/
def TicketAggFrame (t t' : Ticket) : Prop :=
  { t' with sumWip := t.sumWip } = t

/-- Pointwise lifting of `TicketAggFrame` to the whole row list. -/
def RowsAggFrame (a b : List Ticket) : Prop :=
  a.length = b.length ∧
  ∀ (i : Nat) t t', a[i]? = some t → b[i]? = some t' → TicketAggFrame t t'

/-! ## Lemmas: duration scanner -/

/-- The parsed decimal value of a match is non-negative. -/
theorem ratOfDigits_nonneg (ds fs : List Char) : 0 ≤ ratOfDigits ds fs := by
  unfold ratOfDigits
  split <;> positivity

/-- A successful match yields one of the three recognised units. -/
theorem matchToken_unit {cs : List Char} {v : ℚ} {u : Char} {rest : List Char}
    (h : matchToken cs = some (v, u, rest)) : u = 'd' ∨ u = 'h' ∨ u = 'm' := by
  unfold matchToken at h
  dsimp only at h
  split at h
  · exact absurd h (by simp)
  · split at h
    · split at h
      · rename_i hcond
        simp only [Option.some.injEq, Prod.mk.injEq] at h
        obtain ⟨-, hu, -⟩ := h
        exact hu ▸ hcond
      · exact absurd h (by simp)
    · exact absurd h (by simp)

/-- A successful match yields a non-negative value. -/
theorem matchToken_nonneg {cs : List Char} {v : ℚ} {u : Char} {rest : List Char}
    (h : matchToken cs = some (v, u, rest)) : 0 ≤ v := by
  unfold matchToken at h
  dsimp only at h
  split at h
  · exact absurd h (by simp)
  · split at h
    · split at h
      · simp only [Option.some.injEq, Prod.mk.injEq] at h
        obtain ⟨hv, -, -⟩ := h
        exact hv ▸ ratOfDigits_nonneg _ _
      · exact absurd h (by simp)
    · exact absurd h (by simp)

/-- The accumulation loop computes the accumulator plus the weighted sum of
the scanned tokens. -/
theorem parseAux_eq_sum : ∀ (f : Nat) (acc : ℚ) (cs : List Char),
    parseAux f acc cs = acc + ((scanAux f cs).map tokenHours).sum := by
  intro f
  induction f with
  | zero => intro acc cs; simp [parseAux, scanAux]
  | succ f ih =>
    intro acc cs
    cases cs with
    | nil => simp [parseAux, scanAux]
    | cons c cs =>
      cases h : matchToken (c :: cs) with
      | none => simp only [parseAux, scanAux, h, ih]
      | some t =>
        obtain ⟨v, u, rest⟩ := t
        have hu := matchToken_unit h
        simp only [parseAux, scanAux, h, ih, List.map_cons, List.sum_cons]
        rcases hu with hu | hu | hu <;>
          simp [hu, addTok, tokenHours] <;> ring

/-- Every value the scanner accumulates is non-negative, so the total is at
least the accumulator. -/
theorem parseAux_le : ∀ (f : Nat) (acc : ℚ) (cs : List Char),
    acc ≤ parseAux f acc cs := by
  intro f
  induction f with
  | zero => intro acc cs; simp [parseAux]
  | succ f ih =>
    intro acc cs
    cases cs with
    | nil => simp [parseAux]
    | cons c cs =>
      cases h : matchToken (c :: cs) with
      | none => simpa only [parseAux, h] using ih acc cs
      | some t =>
        obtain ⟨v, u, rest⟩ := t
        have hv := matchToken_nonneg h
        have hstep : acc ≤ addTok acc v u := by
          unfold addTok
          split
          · nlinarith
          · split
            · linarith
            · split
              · nlinarith
              · exact le_refl acc
        calc acc ≤ addTok acc v u := hstep
          _ ≤ parseAux f (addTok acc v u) rest := ih _ _
          _ = parseAux (f + 1) acc (c :: cs) := by simp [parseAux, h]

/-- Function `parseTimeToHours` never returns a negative number. -/
theorem parseTimeToHours_nonneg (s : String) : 0 ≤ parseTimeToHours s := by
  unfold parseTimeToHours
  split
  · exact le_refl 0
  · exact parseAux_le _ 0 _

/-! ## Lemmas: indexed update -/

/-- Updating via `modifyIdx` keeps the list length. -/
theorem modifyIdx_length : ∀ (l : List Ticket) (j : Nat) (f : Ticket → Ticket),
    (modifyIdx l j f).length = l.length := by
  intro l
  induction l with
  | nil => intro j f; rfl
  | cons t ts ih =>
    intro j f
    cases j with
    | zero => rfl
    | succ j => simpa [modifyIdx] using ih j f

/-- Reading an indexed update: position `j` is mapped, others unchanged. -/
theorem modifyIdx_getElem? : ∀ (l : List Ticket) (j : Nat) (f : Ticket → Ticket)
    (i : Nat), (modifyIdx l j f)[i]? = if i = j then (l[i]?).map f else l[i]? := by
  intro l
  induction l with
  | nil => intro j f i; simp [modifyIdx]
  | cons t ts ih =>
    intro j f i
    cases j with
    | zero =>
      cases i with
      | zero => simp [modifyIdx]
      | succ i => simp [modifyIdx]
    | succ j =>
      cases i with
      | zero => simp [modifyIdx]
      | succ i =>
        simp only [modifyIdx, List.getElem?_cons_succ, ih j f i,
          Nat.succ_eq_add_one, Nat.add_right_cancel_iff]

/-! ## Lemmas: propagation pass frame / no-overwrite invariant -/

/-- Relation `TicketTagEvol` is reflexive. -/
theorem ticketTagEvol_refl (t : Ticket) : TicketTagEvol t t :=
  ⟨rfl, fun _ => rfl⟩

/-- Relation `RowsTagEvol` is reflexive. -/
theorem rowsTagEvol_refl (a : List Ticket) : RowsTagEvol a a :=
  ⟨rfl, fun i t t' h h' => by
    rw [h] at h'
    exact Option.some.inj h' ▸ ticketTagEvol_refl t⟩

/-- A tag write into a currently untagged position preserves `RowsTagEvol`. -/
theorem rowsTagEvol_write {a b : List Ticket} (h : RowsTagEvol a b) {j : Nat}
    {d : Ticket} (hget : b[j]? = some d) (hempty : d.rdti = "") (tag : String) :
    RowsTagEvol a (modifyIdx b j (fun x => { x with rdti := tag })) := by
  refine ⟨by rw [h.1, modifyIdx_length], ?_⟩
  intro i t t' ha hb
  rw [modifyIdx_getElem? b j _ i] at hb
  by_cases hij : i = j
  · subst hij
    rw [hget] at hb
    have hevol := h.2 i t d ha hget
    have ht' : t' = { d with rdti := tag } := by
      simpa using hb.symm
    subst ht'
    obtain ⟨hframe, hkeep⟩ := hevol
    constructor
    · cases t
      cases d
      simp_all
    · intro hne
      exact absurd (hkeep hne) (by simp_all)
  · rw [if_neg hij] at hb
    exact h.2 i t t' ha hb

/-- One sweep step preserves `RowsTagEvol` (its write is guarded by the
target being untagged). -/
theorem sweepStep_tagEvol {a : List Ticket} {st : List Ticket × List String}
    (h : RowsTagEvol a st.1) (tag : String) (j : Nat) :
    RowsTagEvol a (sweepStep tag st j).1 := by
  unfold sweepStep
  cases hget : st.1[j]? with
  | none => exact h
  | some d =>
    by_cases hd : d.rdti = ""
    · simpa [hget, hd] using rowsTagEvol_write h hget hd tag
    · simpa [hget, hd] using h

/-- The whole descendant sweep preserves `RowsTagEvol`. -/
theorem sweep_tagEvol (tag : String) : ∀ (idxs : List Nat)
    (st : List Ticket × List String) (a : List Ticket),
    RowsTagEvol a st.1 → RowsTagEvol a (sweep tag idxs st).1 := by
  intro idxs
  induction idxs with
  | nil => intro st a h; exact h
  | cons j idxs ih =>
    intro st a h
    exact ih (sweepStep tag st j) a (sweepStep_tagEvol h tag j)

/-- One main-loop iteration preserves `RowsTagEvol` (its direct write is
guarded by the `else if t.rdti ≠ ''` skip). -/
theorem propagateStep_tagEvol {a : List Ticket} {st : List Ticket × List String}
    (h : RowsTagEvol a st.1) (i : Nat) :
    RowsTagEvol a (propagateStep st i).1 := by
  unfold propagateStep
  dsimp only
  split
  · exact h
  · rename_i t hget
    split
    · exact h
    · split
      · exact h
      · split
        · exact h
        · split
          · exact h
          · rename_i tag htag
            have hempty : t.rdti = "" := not_not.mp (by assumption)
            have hw := rowsTagEvol_write h hget hempty tag
            exact sweep_tagEvol tag _ _ a hw

/-- The full propagation pass only evolves rows according to
`RowsTagEvol`: every non-`rdti` field is untouched, and a non-empty
`rdti` keeps its value. -/
theorem propagate_tagEvol (rows : List Ticket) :
    RowsTagEvol rows (propagate rows) := by
  unfold propagate
  suffices hfold : ∀ (l : List Nat) (st : List Ticket × List String),
      RowsTagEvol rows st.1 → RowsTagEvol rows (l.foldl propagateStep st).1 by
    exact hfold (List.range rows.length) (rows, []) (rowsTagEvol_refl rows)
  intro l
  induction l with
  | nil => intro st h; exact h
  | cons i l ih =>
    intro st h
    exact ih (propagateStep st i) (propagateStep_tagEvol h i)

/-! ## Lemmas: aggregation pass frame -/

/-- Relation `TicketAggFrame` is reflexive. -/
theorem ticketAggFrame_refl (t : Ticket) : TicketAggFrame t t := rfl

/-- Relation `RowsAggFrame` is reflexive. -/
theorem rowsAggFrame_refl (a : List Ticket) : RowsAggFrame a a :=
  ⟨rfl, fun i t t' h h' => by
    rw [h] at h'
    exact Option.some.inj h' ▸ ticketAggFrame_refl t⟩

/-- Writing the `sumWip` field at any position preserves `RowsAggFrame`. -/
theorem rowsAggFrame_write {a b : List Ticket} (h : RowsAggFrame a b) (j : Nat)
    (v : Ticket → Option ℚ) :
    RowsAggFrame a (modifyIdx b j (fun x => { x with sumWip := v x })) := by
  refine ⟨by rw [h.1, modifyIdx_length], ?_⟩
  intro i t t' ha hb
  rw [modifyIdx_getElem? b j _ i] at hb
  by_cases hij : i = j
  · subst hij
    cases hex : b[i]? with
    | none => rw [hex] at hb; exact absurd hb (by simp)
    | some d =>
      rw [hex] at hb
      have hframe := h.2 i t d ha hex
      have ht' : t' = { d with sumWip := v d } := by simpa using hb.symm
      subst ht'
      unfold TicketAggFrame at hframe ⊢
      cases t
      cases d
      simp_all
  · rw [if_neg hij] at hb
    exact h.2 i t t' ha hb

/-- One aggregation-loop iteration preserves `RowsAggFrame`. -/
theorem aggregateStep_frame {a rows : List Ticket} (h : RowsAggFrame a rows)
    (i : Nat) : RowsAggFrame a (aggregateStep rows i) := by
  unfold aggregateStep
  dsimp only
  split
  · exact h
  · split
    · exact rowsAggFrame_write (rowsAggFrame_write h i _) i _
    · exact rowsAggFrame_write h i _

/-- The whole aggregation pass only writes `sumWip`. -/
theorem aggregate_frame (rows : List Ticket) : RowsAggFrame rows (aggregate rows) := by
  unfold aggregate
  suffices hfold : ∀ (l : List Nat) (st : List Ticket),
      RowsAggFrame rows st → RowsAggFrame rows (l.foldl aggregateStep st) by
    exact hfold (List.range rows.length) rows (rowsAggFrame_refl rows)
  intro l
  induction l with
  | nil => intro st h; exact h
  | cons i l ih =>
    intro st h
    exact ih (aggregateStep st i) (aggregateStep_frame h i)

/-- An aggregation-loop iteration leaves every other position untouched. -/
theorem aggregateStep_getElem?_ne (rows : List Ticket) (j i : Nat)
    (hij : i ≠ j) : (aggregateStep rows j)[i]? = rows[i]? := by
  unfold aggregateStep
  dsimp only
  split
  · rfl
  · split
    · rw [modifyIdx_getElem?, if_neg hij, modifyIdx_getElem?, if_neg hij]
    · rw [modifyIdx_getElem?, if_neg hij]

/-- Iterating the aggregation loop over positions other than `i` leaves
position `i` untouched. -/
theorem aggregate_foldl_getElem?_ne : ∀ (l : List Nat) (rows : List Ticket)
    (i : Nat), i ∉ l → (l.foldl aggregateStep rows)[i]? = rows[i]? := by
  intro l
  induction l with
  | nil => intro rows i _; rfl
  | cons j l ih =>
    intro rows i hi
    have hij : i ≠ j := fun hc => hi (hc ▸ List.mem_cons_self j l)
    have hrest : i ∉ l := fun hc => hi (List.mem_cons_of_mem j hc)
    rw [List.foldl_cons, ih (aggregateStep rows j) i hrest,
      aggregateStep_getElem?_ne rows j i hij]

/-- At its own position, an iteration on a ticket that is not a tagged MAP
ticket writes exactly `sumWip := some 0`. -/
theorem aggregateStep_getElem?_self {rows : List Ticket} {i : Nat} {t : Ticket}
    (hget : rows[i]? = some t) (hnot : ¬(isMapTicket t = true ∧ t.rdti ≠ "")) :
    (aggregateStep rows i)[i]? = some { t with sumWip := some 0 } := by
  unfold aggregateStep
  rw [hget]
  dsimp only
  have hcond : (isMapTicket t && t.rdti != "") = false := by
    cases hb : (isMapTicket t && t.rdti != "") with
    | false => rfl
    | true =>
      exact absurd (by simpa [Bool.and_eq_true, ne_eq, bne_iff_ne] using hb) hnot
  rw [hcond]
  simp only [Bool.false_eq_true, if_false]
  rw [modifyIdx_getElem?, if_pos rfl, hget]
  rfl

/-- Folding the aggregation loop over `range n` writes `sumWip = some 0` at
every position `i < n` holding a ticket that is not a tagged MAP ticket. -/
theorem aggregate_range_sumWip_zero : ∀ (n : Nat) (rows : List Ticket) (i : Nat)
    (t : Ticket), i < n → rows[i]? = some t →
    ¬(isMapTicket t = true ∧ t.rdti ≠ "") →
    ((List.range n).foldl aggregateStep rows)[i]? = some { t with sumWip := some 0 } := by
  intro n
  induction n with
  | zero => intro rows i t hi; exact absurd hi (Nat.not_lt_zero i)
  | succ n ih =>
    intro rows i t hi hget hnot
    rw [List.range_succ, List.foldl_append, List.foldl_cons, List.foldl_nil]
    by_cases hin : i = n
    · subst hin
      have huntouched : ((List.range i).foldl aggregateStep rows)[i]? = some t := by
        rw [aggregate_foldl_getElem?_ne (List.range i) rows i (by simp), hget]
      exact aggregateStep_getElem?_self huntouched hnot
    · have hi' : i < n := Nat.lt_of_le_of_ne (Nat.le_of_lt_succ hi) hin
      rw [aggregateStep_getElem?_ne _ n i hin]
      exact ih rows i t hi' hget hnot

/-- After the aggregation pass, every ticket that is not a tagged MAP ticket
carries `sumWip = some 0` (and is otherwise unchanged). -/
theorem aggregate_sumWip_zero {rows : List Ticket} {i : Nat} {t : Ticket}
    (hget : rows[i]? = some t) (hnot : ¬(isMapTicket t = true ∧ t.rdti ≠ "")) :
    (aggregate rows)[i]? = some { t with sumWip := some 0 } := by
  have hi : i < rows.length := by
    by_contra hge
    rw [List.getElem?_eq_none (Nat.le_of_not_lt hge)] at hget
    exact absurd hget (by simp)
  exact aggregate_range_sumWip_zero rows.length rows i t hi hget hnot

/-! ## Lemmas: `getWIPHours` under an acyclic parent relation -/

/-- Children of any ticket are rows. -/
theorem getChildren_sub {rows : List Ticket} {t c : Ticket}
    (hc : c ∈ getChildren rows t) : c ∈ rows :=
  (List.mem_filter.mp hc).1

/-- Step `wipStep` only inspects `rec` on the direct children. -/
theorem wipStep_congr {rows : List Ticket} {r r' : Ticket → ℚ} {t : Ticket}
    (h : ∀ c ∈ getChildren rows t, r c = r' c) :
    wipStep rows r t = wipStep rows r' t := by
  unfold wipStep
  dsimp only
  rw [List.map_congr_left h]

/-- With enough fuel, `getWIPHoursF` is independent of the exact fuel: any
two fuels strictly above the rank of `t` (for a rank function decreasing
along the child relation) give the same value. -/
theorem wip_stab (rows : List Ticket) (rank : Ticket → Nat)
    (hrank : ∀ t' ∈ rows, ∀ c ∈ getChildren rows t', rank c < rank t') :
    ∀ (k : Nat) (t : Ticket), t ∈ rows → rank t ≤ k →
    ∀ (f g : Nat), rank t < f → rank t < g →
    getWIPHoursF rows f t = getWIPHoursF rows g t := by
  intro k
  induction k with
  | zero =>
    intro t ht hk f g hf hg
    obtain ⟨f', rfl⟩ : ∃ f', f = f' + 1 := ⟨f - 1, by omega⟩
    obtain ⟨g', rfl⟩ : ∃ g', g = g' + 1 := ⟨g - 1, by omega⟩
    have hchild : getChildren rows t = [] := by
      rw [List.eq_nil_iff_forall_not_mem]
      intro c hc
      have := hrank t ht c hc
      omega
    simp only [getWIPHoursF]
    unfold wipStep
    dsimp only
    rw [hchild]
    simp
  | succ k ih =>
    intro t ht hk f g hf hg
    obtain ⟨f', rfl⟩ : ∃ f', f = f' + 1 := ⟨f - 1, by omega⟩
    obtain ⟨g', rfl⟩ : ∃ g', g = g' + 1 := ⟨g - 1, by omega⟩
    simp only [getWIPHoursF]
    apply wipStep_congr
    intro c hc
    have hcr : rank c < rank t := hrank t ht c hc
    exact ih c (getChildren_sub hc) (by omega) f' g' (by omega) (by omega)

/-- Under an acyclic parent relation (witnessed by a rank function bounded by
the row count), `getWIPHours` satisfies its defining unfolding with the
children evaluated by `getWIPHours` itself. -/
theorem getWIPHours_fix (rows : List Ticket) (rank : Ticket → Nat)
    (hrank : ∀ t' ∈ rows, ∀ c ∈ getChildren rows t', rank c < rank t')
    (hbound : ∀ t' ∈ rows, rank t' < rows.length) (t : Ticket) (ht : t ∈ rows) :
    getWIPHours rows t = wipStep rows (getWIPHours rows) t := by
  unfold getWIPHours
  have h1 : getWIPHoursF rows rows.length t = getWIPHoursF rows (rank t + 1) t :=
    wip_stab rows rank hrank (rank t) t ht le_rfl _ _ (hbound t ht)
      (Nat.lt_succ_self _)
  rw [h1]
  simp only [getWIPHoursF]
  apply wipStep_congr
  intro c hc
  have hcr : rank c < rank t := hrank t ht c hc
  have hcm : c ∈ rows := getChildren_sub hc
  exact wip_stab rows rank hrank (rank c) c hcm le_rfl (rank t) rows.length hcr
    (hbound c hcm)

/-- Function `getWIPHoursF` is non-negative at every fuel. -/
theorem getWIPHoursF_nonneg (rows : List Ticket) : ∀ (f : Nat) (t : Ticket),
    0 ≤ getWIPHoursF rows f t := by
  intro f
  induction f with
  | zero => intro t; exact le_refl 0
  | succ f ih =>
    intro t
    simp only [getWIPHoursF]
    unfold wipStep
    dsimp only
    have hbase : (0 : ℚ) ≤ parseTimeToHours t.wip * (getPeopleCount t : ℚ) :=
      mul_nonneg (parseTimeToHours_nonneg _) (by positivity)
    split
    · exact hbase
    · split
      · exact mul_nonneg (parseTimeToHours_nonneg _) (by positivity)
      · exact le_trans hbase (le_max_left _ _)

/-- Function `getWIPHours` is non-negative. -/
theorem getWIPHours_nonneg (rows : List Ticket) (t : Ticket) :
    0 ≤ getWIPHours rows t :=
  getWIPHoursF_nonneg rows rows.length t

/-! ## Lemmas: rollup double-count exclusion -/

/-- A linked id in the descendant union contributes nothing. -/
theorem rollupAdd_skip (rows : List Ticket) (allDesc : List String) (total : ℚ)
    (linkedId : String) (hmem : allDesc.contains linkedId = true) :
    rollupAdd rows allDesc total linkedId = total := by
  unfold rollupAdd
  cases findTicket rows linkedId with
  | none => rfl
  | some lt =>
    dsimp only
    rw [if_pos hmem]

/-- Folding the rollup over a list equals folding it over any sublist kept by
a filter dropping only contribution-free ids. -/
theorem rollupFold_filter (rows : List Ticket) (allDesc : List String)
    (p : String → Bool)
    (hskip : ∀ id', p id' = false → ∀ total, rollupAdd rows allDesc total id' = total) :
    ∀ (ids : List String) (total : ℚ),
    ids.foldl (rollupAdd rows allDesc) total =
      (ids.filter p).foldl (rollupAdd rows allDesc) total := by
  intro ids
  induction ids with
  | nil => intro total; rfl
  | cons id' ids ih =>
    intro total
    cases hp : p id' with
    | true => simp only [List.foldl_cons, List.filter_cons, hp, if_true, ih]
    | false =>
      simp only [List.foldl_cons, List.filter_cons, hp, Bool.false_eq_true,
        if_false, hskip id' hp total, ih]

/-! ## Lemmas: the summary sort comparator -/

/-- Position-wise list comparison is antisymmetric. -/
theorem listCmp_antisym : ∀ (x y : List Nat), listCmp y x = -listCmp x y := by
  intro x
  induction x with
  | nil => intro y; cases y <;> simp [listCmp]
  | cons a as ih =>
    intro y
    cases y with
    | nil => simp [listCmp]
    | cons b bs =>
      by_cases hab : a < b
      · have : ¬ b < a := by omega
        simp [listCmp, hab, this]
      · by_cases hba : b < a
        · simp [listCmp, hab, hba]
        · simp [listCmp, hab, hba, ih bs]

/-- Position-wise list comparison separates points. -/
theorem listCmp_eq_zero : ∀ {x y : List Nat}, listCmp x y = 0 → x = y := by
  intro x
  induction x with
  | nil =>
    intro y h
    cases y with
    | nil => rfl
    | cons b bs => exact absurd h (by simp [listCmp])
  | cons a as ih =>
    intro y h
    cases y with
    | nil => exact absurd h (by simp [listCmp])
    | cons b bs =>
      by_cases hab : a < b
      · rw [listCmp, if_pos hab] at h
        exact absurd h (by simp)
      · by_cases hba : b < a
        · rw [listCmp, if_neg hab, if_pos hba] at h
          exact absurd h (by simp)
        · rw [listCmp, if_neg hab, if_neg hba] at h
          have hab' : a = b := by omega
          rw [hab', ih h]

/-- Position-wise list comparison is transitive in its non-positive part. -/
theorem listCmp_trans : ∀ (x y z : List Nat), listCmp x y ≤ 0 → listCmp y z ≤ 0 →
    listCmp x z ≤ 0 := by
  intro x
  induction x with
  | nil =>
    intro y z _ _
    cases z <;> simp [listCmp]
  | cons a as ih =>
    intro y z h1 h2
    cases y with
    | nil => exact absurd h1 (by simp [listCmp])
    | cons b bs =>
      cases z with
      | nil => exact absurd h2 (by simp [listCmp])
      | cons c cs =>
        by_cases hab : a < b
        · by_cases hbc : b < c
          · simp [listCmp, show a < c by omega]
          · by_cases hcb : c < b
            · rw [listCmp, if_neg hbc, if_pos hcb] at h2
              exact absurd h2 (by simp)
            · have hbceq : b = c := by omega
              simp [listCmp, show a < c by omega]
        · by_cases hba : b < a
          · rw [listCmp, if_neg hab, if_pos hba] at h1
            exact absurd h1 (by simp)
          · have habeq : a = b := by omega
            rw [listCmp, if_neg hab, if_neg hba] at h1
            by_cases hbc : b < c
            · simp [listCmp, show a < c by omega]
            · by_cases hcb : c < b
              · rw [listCmp, if_neg hbc, if_pos hcb] at h2
                exact absurd h2 (by simp)
              · have hbceq : b = c := by omega
                rw [listCmp, if_neg hbc, if_neg hcb] at h2
                have hacn : ¬ a < c := by omega
                have hcan : ¬ c < a := by omega
                rw [listCmp, if_neg hacn, if_neg hcan]
                exact ih bs cs h1 h2

/-- Every tier entry of a collation key is positive, and the separators are
the only zeros; together with the final code-point tier this makes the key
injective. -/
theorem collKey_inj {s1 s2 : String} (h : collKey s1 = collKey s2) : s1 = s2 := by
  unfold collKey at h
  have hlen : s1.data.length = s2.data.length := by
    have := congrArg List.length h
    simp only [List.length_append, List.length_cons, List.length_map] at this
    omega
  obtain ⟨-, h1⟩ := List.append_inj h (by simp [hlen])
  injection h1 with h10 h4
  have hinj : Function.Injective (fun c : Char => c.toNat + 1) := by
    intro a b hab
    exact Char.eq_of_val_eq (UInt32.toNat.inj (Nat.add_right_cancel hab))
  have hdata : s1.data = s2.data := List.map_injective_iff.mpr hinj h4
  cases s1
  cases s2
  simp_all

/-- Comparison `localeCompare` separates points. -/
theorem localeCompare_eq_zero {a b : String} (h : localeCompare a b = 0) : a = b :=
  collKey_inj (listCmp_eq_zero h)

/-- The summary comparator is total: one of the two orders is non-positive. -/
theorem aggLE_total (a b : AggEntry) : aggLE a b || aggLE b a := by
  unfold aggLE aggCmp
  by_cases hp : a.project = b.project
  · have hsym := listCmp_antisym (collKey a.who) (collKey b.who)
    unfold localeCompare
    simp only [hp, ne_eq, not_true_eq_false, if_false, ite_not]
    rcases le_or_lt (listCmp (collKey a.who) (collKey b.who)) 0 with hle | hlt
    · simp [hp, hle]
    · simp [hp.symm, hsym]
      omega
  · have hsym := listCmp_antisym (collKey a.project) (collKey b.project)
    unfold localeCompare
    have hp' : ¬ b.project = a.project := fun hc => hp hc.symm
    rcases le_or_lt (listCmp (collKey a.project) (collKey b.project)) 0 with hle | hlt
    · simp [hp, hle]
    · simp [hp, hp', hsym]
      omega

/-- The summary comparator is transitive. -/
theorem aggLE_trans (a b c : AggEntry) (h1 : aggLE a b) (h2 : aggLE b c) :
    aggLE a c := by
  unfold aggLE aggCmp at h1 h2 ⊢
  simp only [decide_eq_true_eq] at h1 h2 ⊢
  by_cases hab : a.project = b.project
  · by_cases hbc : b.project = c.project
    · rw [if_neg (not_not_intro hab)] at h1
      rw [if_neg (not_not_intro hbc)] at h2
      rw [if_neg (not_not_intro (hab.trans hbc))]
      exact listCmp_trans _ _ _ h1 h2
    · have hac : a.project ≠ c.project := fun hc => hbc (hab.symm.trans hc)
      rw [if_pos hbc] at h2
      rw [if_pos hac]
      unfold localeCompare at h2 ⊢
      rw [hab]
      exact h2
  · by_cases hbc : b.project = c.project
    · have hac : a.project ≠ c.project := fun hc => hab (hc.trans hbc.symm)
      rw [if_pos hab] at h1
      rw [if_pos hac]
      unfold localeCompare at h1 ⊢
      rw [← hbc]
      exact h1
    · rw [if_pos hab] at h1
      rw [if_pos hbc] at h2
      unfold localeCompare at h1 h2
      by_cases hac : a.project = c.project
      · exfalso
        have h2' : listCmp (collKey b.project) (collKey a.project) ≤ 0 := by
          rw [hac]
          exact h2
        have hanti := listCmp_antisym (collKey a.project) (collKey b.project)
        have hzero : listCmp (collKey a.project) (collKey b.project) = 0 := by omega
        exact hab (collKey_inj (listCmp_eq_zero hzero))
      · rw [if_pos hac]
        unfold localeCompare
        exact listCmp_trans _ _ _ h1 h2

/-- A ticket with a non-empty tag keeps it across the propagation pass. -/
theorem propagate_keeps_nonempty_tag (rows : List Ticket) (i : Nat) (t : Ticket)
    (hget : rows[i]? = some t) (htag : t.rdti ≠ "") :
    ∃ t', (propagate rows)[i]? = some t' ∧ t'.rdti = t.rdti := by
  have hevol := propagate_tagEvol rows
  have hi : i < rows.length := (List.getElem?_eq_some.mp hget).1
  have hi' : i < (propagate rows).length := hevol.1 ▸ hi
  refine ⟨(propagate rows)[i], List.getElem?_eq_getElem hi', ?_⟩
  exact (hevol.2 i t _ hget (List.getElem?_eq_getElem hi')).2 htag

/-- At its own position, an aggregation iteration always writes `some` value
into `sumWip`. -/
theorem aggregateStep_getElem?_self_any {rows : List Ticket} {i : Nat}
    {t : Ticket} (hget : rows[i]? = some t) :
    ∃ q : ℚ, (aggregateStep rows i)[i]? = some { t with sumWip := some q } := by
  unfold aggregateStep
  rw [hget]
  dsimp only
  split
  · refine ⟨sumLinkedWIP (modifyIdx rows i fun x => { x with sumWip := some 0 }) t, ?_⟩
    rw [modifyIdx_getElem?, if_pos rfl, modifyIdx_getElem?, if_pos rfl, hget]
    rfl
  · refine ⟨0, ?_⟩
    rw [modifyIdx_getElem?, if_pos rfl, hget]
    rfl

/-- Folding the aggregation loop over `range n` writes a `some` value into
`sumWip` at every position `i < n`. -/
theorem aggregate_range_sumWip_some : ∀ (n : Nat) (rows : List Ticket) (i : Nat)
    (t : Ticket), i < n → rows[i]? = some t →
    ∃ q : ℚ, ((List.range n).foldl aggregateStep rows)[i]? = some { t with sumWip := some q } := by
  intro n
  induction n with
  | zero => intro rows i t hi; exact absurd hi (Nat.not_lt_zero i)
  | succ n ih =>
    intro rows i t hi hget
    rw [List.range_succ, List.foldl_append, List.foldl_cons, List.foldl_nil]
    by_cases hin : i = n
    · subst hin
      have huntouched : ((List.range i).foldl aggregateStep rows)[i]? = some t := by
        rw [aggregate_foldl_getElem?_ne (List.range i) rows i (by simp), hget]
      exact aggregateStep_getElem?_self_any huntouched
    · have hi' : i < n := Nat.lt_of_le_of_ne (Nat.le_of_lt_succ hi) hin
      obtain ⟨q, hq⟩ := ih rows i t hi' hget
      exact ⟨q, by rw [aggregateStep_getElem?_ne _ n i hin, hq]⟩

/-- The aggregation pass writes a `some` value into `sumWip` of every row. -/
theorem aggregate_sets_sumWip {rows : List Ticket} {i : Nat} {t : Ticket}
    (hget : rows[i]? = some t) :
    ∃ q : ℚ, (aggregate rows)[i]? = some { t with sumWip := some q } :=
  aggregate_range_sumWip_some rows.length rows i t (List.getElem?_eq_some.mp hget).1 hget

/-- The `Project Summary` rows are pairwise ordered by the comparator. -/
theorem summaryData_pairwise (rows : List Ticket) :
    (summaryData rows).Pairwise (fun a b => aggLE a b) :=
  List.sorted_mergeSort (fun a b c => aggLE_trans a b c) aggLE_total (summaryEntries rows)

/-! ## Claim theorems -/

/-- C7: `parseHours` sums `value*8` per `<number>d` token, `value*1` per
`<number>h` token and `value/60` per `<number>m` token over all tokens the
scanner finds (in any order, ignoring unmatched text); empty input yields 0;
and in particular `parseHours "1d 2h 30m" = 10.5`, `parseHours "" = 0`,
`parseHours "45m" = 0.75`. -/
theorem c7_duration_parsing :
    (∀ s : String, parseTimeToHours s = ((scanTokens s).map tokenHours).sum) ∧
    parseTimeToHours "" = 0 ∧
    parseTimeToHours "1d 2h 30m" = 10.5 ∧
    parseTimeToHours "45m" = 0.75 := by
  refine ⟨?_, by with_unfolding_all decide, by with_unfolding_all decide,
    by with_unfolding_all decide⟩
  intro s
  unfold parseTimeToHours scanTokens
  split
  · rename_i hs
    subst hs
    with_unfolding_all decide
  · rw [parseAux_eq_sum, zero_add]

/-- C6: on the §8 scenario (activity ticket `MAP-1` tagged `"Platform"`
linking `TASK-10`, whose child `TASK-11` logged `"2h"` with mob `"Carol"`),
the pipeline computes `sumWipHours (MAP-1) = 2` and the `Transformed Data`
sheet consists of the single row
`["Platform","Carol","Employee","Support",2,"Development","TASK-11"]`. -/
theorem c6_scenario :
    (findTicket (aggregate (propagate scenarioRows)) "MAP-1").map
        (fun t => t.sumWip) = some (some 2) ∧
    transformedRows (aggregate (propagate scenarioRows)) =
      [[Cell.str "Platform", Cell.str "Carol", Cell.str "Employee",
        Cell.str "Support", Cell.num 2, Cell.str "Development",
        Cell.str "TASK-11"]] := by
  constructor
  · with_unfolding_all decide
  · with_unfolding_all decide

/-- C8: a ticket that carries a non-empty `activityTag` before the
propagation pass carries the same value afterwards — neither the main loop
nor the descendant sweep overwrites an existing tag. -/
theorem c8_no_overwrite (rows : List Ticket) (i : Nat) (t : Ticket)
    (hget : rows[i]? = some t) (htag : t.rdti ≠ "") :
    ∃ t', (propagate rows)[i]? = some t' ∧ t'.rdti = t.rdti :=
  propagate_keeps_nonempty_tag rows i t hget htag

/-- Witness for C8: `MAP-1` of `sortExRows` keeps its native tag `"apple"`. -/
theorem c8_no_overwrite_witness :
    ∃ t', (propagate sortExRows)[0]? = some t' ∧ t'.rdti = sortM1.rdti :=
  c8_no_overwrite sortExRows 0 sortM1 (by with_unfolding_all decide)
    (by with_unfolding_all decide)

/-- C9 counterexample: the Propagator is not idempotent.  On `idemExRows`,
the first pass tags `MAP-9` only through the descendant sweep of `T-2`, so
`T-1` (linked to `MAP-9`, processed earlier) stays untagged; the second pass
then tags `T-1`, changing its `activityTag`. -/
theorem c9_counterexample :
    ¬ ((propagate (propagate idemExRows)).map (fun t => t.rdti) =
       (propagate idemExRows).map (fun t => t.rdti)) := by
  with_unfolding_all decide

/-- C9 (amended): a second propagation run never changes the tag of a ticket
that is tagged after the first run; it can only add tags to tickets the
first run left untagged. -/
theorem c9_second_run_keeps_tags (rows : List Ticket) (i : Nat) (t : Ticket)
    (hget : (propagate rows)[i]? = some t) (htag : t.rdti ≠ "") :
    ∃ t', (propagate (propagate rows))[i]? = some t' ∧ t'.rdti = t.rdti :=
  propagate_keeps_nonempty_tag (propagate rows) i t hget htag

/-- Witness for the amended C9: `T-2` of `idemExRows` is tagged `"RD"` after
the first run and keeps that tag across the second run. -/
theorem c9_second_run_keeps_tags_witness :
    ∃ t', (propagate (propagate idemExRows))[1]? = some t' ∧
      t'.rdti = idemT2Tagged.rdti :=
  c9_second_run_keeps_tags idemExRows 1 idemT2Tagged
    (by with_unfolding_all decide) (by with_unfolding_all decide)

/-- C3 counterexample: the aggregation pass does NOT leave non-activity
tickets untouched — it initialises `Sum of WIP hours` to 0 on every ticket,
so the single non-MAP ticket of `frameExRows` differs after the pass (its
`sumWip` goes from absent to `some 0`). -/
theorem c3_counterexample :
    isMapTicket frameT1 = false ∧
    frameExRows[0]? = some frameT1 ∧
    ¬ (aggregate frameExRows)[0]? = some frameT1 := by
  refine ⟨by with_unfolding_all decide, by with_unfolding_all decide, ?_⟩
  with_unfolding_all decide

/-- C3 (amended): the Propagator writes only `activityTag`, and the
Aggregator writes only `sumWipHours` — but on every ticket (it initialises
the field to 0 everywhere, then overwrites it on tagged activity tickets):
all other fields are unchanged across both passes, and after aggregation
every ticket carries a `sumWipHours` value. -/
theorem c3_pass_frames (rows : List Ticket) (i : Nat) (t : Ticket)
    (hget : rows[i]? = some t) :
    ∃ t', (propagate rows)[i]? = some t' ∧ { t' with rdti := t.rdti } = t ∧
      ∃ t'', (aggregate (propagate rows))[i]? = some t'' ∧
        { t'' with sumWip := t'.sumWip } = t' ∧ ∃ q : ℚ, t''.sumWip = some q := by
  have hevol := propagate_tagEvol rows
  have hi : i < rows.length := (List.getElem?_eq_some.mp hget).1
  have hi' : i < (propagate rows).length := hevol.1 ▸ hi
  have hget' : (propagate rows)[i]? = some ((propagate rows)[i]) :=
    List.getElem?_eq_getElem hi'
  refine ⟨_, hget', (hevol.2 i t _ hget hget').1, ?_⟩
  obtain ⟨q, hq⟩ := aggregate_sets_sumWip hget'
  exact ⟨_, hq, rfl, ⟨q, rfl⟩⟩

/-- Witness for the amended C3, on the one-ticket set `frameExRows`. -/
theorem c3_pass_frames_witness :
    ∃ t', (propagate frameExRows)[0]? = some t' ∧
      { t' with rdti := frameT1.rdti } = frameT1 ∧
      ∃ t'', (aggregate (propagate frameExRows))[0]? = some t'' ∧
        { t'' with sumWip := t'.sumWip } = t' ∧ ∃ q : ℚ, t''.sumWip = some q :=
  c3_pass_frames frameExRows 0 frameT1 (by with_unfolding_all decide)

/-- C4: in the rollup of any ticket, every linked id lying in the descendant
union `D` contributes nothing: the rollup equals the rollup over the linked
ids with all ids in `D` filtered out, and (in particular) equals the rollup
with any single `Y ∈ D` excluded from the direct enumeration. -/
theorem c4_descendant_link_exclusion (rows : List Ticket) (A : Ticket) :
    sumLinkedWIP rows A =
      rollupFold rows (linkedDescUnion rows A)
        ((parseLinkedWorkItems A.linked).filter
          (fun k => !(linkedDescUnion rows A).contains k)) ∧
    ∀ y ∈ linkedDescUnion rows A,
      sumLinkedWIP rows A =
        rollupFold rows (linkedDescUnion rows A)
          ((parseLinkedWorkItems A.linked).filter (fun k => k != y)) := by
  constructor
  · unfold sumLinkedWIP
    dsimp only
    split
    · rename_i hemp
      rw [List.isEmpty_iff.mp hemp]
      rfl
    · unfold rollupFold
      apply rollupFold_filter
      intro id' hid' total
      apply rollupAdd_skip
      simpa using hid'
  · intro y hy
    unfold sumLinkedWIP
    dsimp only
    split
    · rename_i hemp
      rw [List.isEmpty_iff.mp hemp]
      rfl
    · unfold rollupFold
      apply rollupFold_filter
      intro id' hid' total
      apply rollupAdd_skip
      have hidy : id' = y := by simpa using hid'
      subst hidy
      exact List.elem_eq_true_of_mem hy

/-- Witness for C4 on `dblExRows`: `MAP-1` links `T-1` and its child `T-2`;
`T-2 ∈ D`, and the rollup equals the rollup with `T-2` excluded. -/
theorem c4_descendant_link_exclusion_witness :
    sumLinkedWIP dblExRows dblM1 =
      rollupFold dblExRows (linkedDescUnion dblExRows dblM1)
        ((parseLinkedWorkItems dblM1.linked).filter (fun k => k != "T-2")) :=
  (c4_descendant_link_exclusion dblExRows dblM1).2 "T-2"
    (by with_unfolding_all decide)

/-- C10: in the `Results` sheet, a falsy `Sum of WIP hours` value (absent or
`0`) renders as the empty string, and every ticket that is not a tagged MAP
ticket ends the pipeline with `sumWipHours = 0`, so its `Sum of WIP hours`
cell (the last cell of its row) is the empty string rather than the number
`0`. -/
theorem c10_zero_renders_blank :
    (∀ o : Option ℚ, o = none ∨ o = some 0 → renderSumWip o = Cell.str "") ∧
    (∀ (rows : List Ticket) (i : Nat) (t : Ticket),
      (propagate rows)[i]? = some t → ¬(isMapTicket t = true ∧ t.rdti ≠ "") →
      ∃ t', (aggregate (propagate rows))[i]? = some t' ∧ t'.sumWip = some 0 ∧
        (resultsCells t').getLast? = some (Cell.str "")) := by
  constructor
  · intro o ho
    rcases ho with rfl | rfl
    · rfl
    · simp [renderSumWip]
  · intro rows i t hget hnot
    refine ⟨{ t with sumWip := some 0 }, aggregate_sumWip_zero hget hnot, rfl, ?_⟩
    unfold resultsCells
    rw [List.getLast?_concat]
    simp [renderSumWip]

/-- Witness for C10, on the one-ticket set `frameExRows`. -/
theorem c10_zero_renders_blank_witness :
    renderSumWip (some 0) = Cell.str "" ∧
    ∃ t', (aggregate (propagate frameExRows))[0]? = some t' ∧
      t'.sumWip = some 0 ∧ (resultsCells t').getLast? = some (Cell.str "") :=
  ⟨c10_zero_renders_blank.1 (some 0) (Or.inr rfl),
   c10_zero_renders_blank.2 frameExRows 0 frameT1 (by with_unfolding_all decide)
     (by with_unfolding_all decide)⟩

/-- The three branches of one `getWIPHours` unfolding, phrased through the
spec's case distinction. -/
theorem wipStep_cases (rows : List Ticket) (rec : Ticket → ℚ) (t : Ticket) :
    (getChildren rows t = [] → wipStep rows rec t = ownHours t) ∧
    (redistributeTaken rows t →
      wipStep rows rec t =
        parseTimeToHours t.wip * (((getChildren rows t).map getPeopleCount).sum : ℚ)) ∧
    (getChildren rows t ≠ [] → ¬ redistributeTaken rows t →
      wipStep rows rec t =
        max (ownHours t) (((getChildren rows t).map rec).sum)) := by
  refine ⟨?_, ?_, ?_⟩
  · intro h
    unfold wipStep
    dsimp only
    rw [h]
    rfl
  · intro hred
    obtain ⟨hne, hall, hpos, hlt⟩ := hred
    have hemp : (getChildren rows t).isEmpty = false := by
      cases hch : getChildren rows t with
      | nil => exact absurd hch hne
      | cons a l => rfl
    have hany : ((getChildren rows t).any fun c =>
        decide ((0 : ℚ) < parseTimeToHours c.wip)) = false := by
      rw [List.any_eq_false]
      intro c hc
      simpa using hall c hc
    unfold wipStep
    dsimp only
    rw [if_neg (by simp [hemp]), if_pos (by simp [hany, hpos, hlt])]
  · intro hne hnotred
    have hemp : (getChildren rows t).isEmpty = false := by
      cases hch : getChildren rows t with
      | nil => exact absurd hch hne
      | cons a l => rfl
    have hcond : (!((getChildren rows t).any fun c =>
          decide ((0 : ℚ) < parseTimeToHours c.wip)) &&
        decide ((0 : ℚ) < parseTimeToHours t.wip) &&
        decide (getPeopleCount t < ((getChildren rows t).map getPeopleCount).sum)) =
          false := by
      by_contra hc
      have hc' := Bool.of_not_eq_false hc
      simp only [Bool.and_eq_true, Bool.not_eq_true', List.any_eq_false,
        decide_eq_true_eq, decide_eq_false_iff_not] at hc'
      exact hnotred ⟨hne, fun c hcmem => (hc'.1.1 c hcmem), hc'.1.2, hc'.2⟩
    unfold wipStep
    dsimp only
    rw [if_neg (by simp [hemp]), if_neg (by simp [hcond])]
    rfl

/-- C5: under an acyclic parent relation (rank function decreasing along the
child relation and bounded by the row count), `wipHours` satisfies the spec's
three-way case distinction: own hours at leaves; parent hours times the
children's combined people count in the redistribute case; otherwise the max
of own hours and the children's sum. -/
theorem c5_wip_hours_equations (rows : List Ticket) (rank : Ticket → Nat)
    (hrank : ∀ t' ∈ rows, ∀ c ∈ getChildren rows t', rank c < rank t')
    (hbound : ∀ t' ∈ rows, rank t' < rows.length) (t : Ticket) (ht : t ∈ rows) :
    (getChildren rows t = [] → getWIPHours rows t = ownHours t) ∧
    (redistributeTaken rows t →
      getWIPHours rows t =
        parseTimeToHours t.wip * (((getChildren rows t).map getPeopleCount).sum : ℚ)) ∧
    (getChildren rows t ≠ [] → ¬ redistributeTaken rows t →
      getWIPHours rows t =
        max (ownHours t) (((getChildren rows t).map (getWIPHours rows)).sum)) := by
  have hfix := getWIPHours_fix rows rank hrank hbound t ht
  have hcases := wipStep_cases rows (getWIPHours rows) t
  exact ⟨fun h => hfix.trans (hcases.1 h),
         fun h => hfix.trans (hcases.2.1 h),
         fun h1 h2 => hfix.trans (hcases.2.2 h1 h2)⟩

/-- Witness for C5: on the §8 scenario, `TASK-10` has a child with hours, so
its `wipHours` is the max of its own hours and the children's sum. -/
theorem c5_wip_hours_equations_witness :
    getWIPHours scenarioRows scenT10 =
      max (ownHours scenT10)
        (((getChildren scenarioRows scenT10).map (getWIPHours scenarioRows)).sum) :=
  (c5_wip_hours_equations scenarioRows scenarioRank
      (by with_unfolding_all decide) (by with_unfolding_all decide) scenT10
      (by with_unfolding_all decide)).2.2
    (by with_unfolding_all decide) (by with_unfolding_all decide)

/-- C2 counterexample: `wipExRows` is acyclic (rank function exhibited), yet
the redistribute case at `T-1` returns `1h * 2 people = 2`, strictly less
than its child subtree's 100 hours — `wipHours` is NOT always at least the
children's sum. -/
theorem c2_counterexample :
    (∀ t' ∈ wipExRows, ∀ c ∈ getChildren wipExRows t', wipExRank c < wipExRank t') ∧
    (∀ t' ∈ wipExRows, wipExRank t' < wipExRows.length) ∧
    wipT1 ∈ wipExRows ∧
    getWIPHours wipExRows wipT1 <
      ((getChildren wipExRows wipT1).map (getWIPHours wipExRows)).sum := by
  refine ⟨?_, ?_, ?_, ?_⟩
  · with_unfolding_all decide
  · with_unfolding_all decide
  · with_unfolding_all decide
  · with_unfolding_all decide

/-- C2 (amended): under an acyclic parent relation, whenever the
redistribute special case is not taken at `T`, `wipHours T` is at least the
sum of the direct children's `wipHours`; the redistribute case can return
less. -/
theorem c2_children_sum_le (rows : List Ticket) (rank : Ticket → Nat)
    (hrank : ∀ t' ∈ rows, ∀ c ∈ getChildren rows t', rank c < rank t')
    (hbound : ∀ t' ∈ rows, rank t' < rows.length) (t : Ticket) (ht : t ∈ rows)
    (hns : ¬ redistributeTaken rows t) :
    ((getChildren rows t).map (getWIPHours rows)).sum ≤ getWIPHours rows t := by
  by_cases hch : getChildren rows t = []
  · rw [hch]
    simpa using getWIPHours_nonneg rows t
  · rw [getWIPHours_fix rows rank hrank hbound t ht,
      (wipStep_cases rows (getWIPHours rows) t).2.2 hch hns]
    exact le_max_right _ _

/-- Witness for the amended C2: at `TASK-10` of the §8 scenario the
children's sum (2) is indeed bounded by `wipHours TASK-10` (2). -/
theorem c2_children_sum_le_witness :
    ((getChildren scenarioRows scenT10).map (getWIPHours scenarioRows)).sum ≤
      getWIPHours scenarioRows scenT10 :=
  c2_children_sum_le scenarioRows scenarioRank (by with_unfolding_all decide)
    (by with_unfolding_all decide) scenT10 (by with_unfolding_all decide)
    (by with_unfolding_all decide)

/-- C1 counterexample: the pipeline on `sortExRows` produces the summary
rows `("apple", Dave)` then `("Banana", Eve)` — ordered by the locale
collation used by `localeCompare` — but this adjacent pair violates
ascending case-sensitive code-point order, under which `"Banana" < "apple"`. -/
theorem c1_counterexample :
    summaryData (aggregate (propagate sortExRows)) = [sortAggApple, sortAggBanana] ∧
    ¬ cpKeyLE sortAggApple sortAggBanana := by
  constructor
  · with_unfolding_all decide
  · with_unfolding_all decide

/-- C1 (amended): adjacent `Project Summary` rows are nondecreasing under the
comparator the code actually sorts with — `localeCompare` on the activity
tag, then on the person name, under the default-locale (root) collation —
which is case-sensitive but not code-point order. -/
theorem c1_summary_sorted (rows : List Ticket) (i : Nat) (a b : AggEntry)
    (ha : (summaryData rows)[i]? = some a)
    (hb : (summaryData rows)[i + 1]? = some b) :
    aggLE a b = true := by
  have hpw := summaryData_pairwise rows
  obtain ⟨hi, hia⟩ := List.getElem?_eq_some.mp ha
  obtain ⟨hj, hjb⟩ := List.getElem?_eq_some.mp hb
  have hadj := List.pairwise_iff_getElem.mp hpw i (i + 1) hi hj (Nat.lt_succ_self i)
  rwa [hia, hjb] at hadj

/-- Witness for the amended C1: the adjacent pair of the `sortExRows`
summary satisfies the code's comparator. -/
theorem c1_summary_sorted_witness :
    aggLE sortAggApple sortAggBanana = true :=
  c1_summary_sorted (aggregate (propagate sortExRows)) 0 sortAggApple
    sortAggBanana (by with_unfolding_all decide) (by with_unfolding_all decide)
